import Mathlib

/-!
Verification of the citation-deduplication core of `scholar2bibtex`.

The source under scrutiny is `src/scholar2bibtex/utils/__init__.py`:

* `same_text(text_a, text_b, threshold=0.9)` returns
  `SequenceMatcher(None, text_a, text_b).ratio() > threshold`;
* `remove_duplicates(entries)` scans all ordered index pairs of a live,
  mutating Python list and pops entries whose lower-cased titles compare
  similar, preferring to drop entries with `method == 'scholar'`;

together with the pipeline glue in `scripts/generate_citations.py` and the
renderer's in-place year sort in `utils/renderer.py` (`generate_html`).

The similarity scorer is the Python standard library `difflib.SequenceMatcher`
(called with `isjunk=None`, `autojunk=True`), which the spec describes as the
"greedy longest-common-substring recursive matcher".  It is embedded below at
full fidelity: the per-row dynamic program of `find_longest_match` with its
first-found tie-breaking, the two extension loops, the `autojunk` popularity
filter (elements of `b` are dropped from the index when `len(b) >= 200` and
they occur more than `len(b)//100 + 1` times), and the region recursion of
`get_matching_blocks`.  Floats are modelled by exact rationals: for the string
lengths representable in practice the float comparison `ratio() > threshold`
agrees with the rational one, because `2*M/T` can only fall within one double
ulp of the threshold when `T` exceeds `10^15`.

Python's `for i, x in enumerate(lst)` over a list that is mutated by `pop`
advances an index cursor checked against the *live* length at each step; the
loops are therefore embedded as index-based recursions.  `lst.pop(k)` raises
`IndexError` when `k >= len(lst)`, modelled by `Except.error`.
-/

/-- Python `j2len.get(key, 0)` on the association list representing the
previous row of the `find_longest_match` dynamic program. -/
def jlookup : List (Nat × Nat) → Nat → Nat
  | [], _ => 0
  | (key, v) :: rest, k => if key = k then v else jlookup rest k

/-- Indices `j` with `b[j] == c`, in increasing order: `difflib`'s `b2j[c]`
(`b2j` maps each element of `b` to its ascending list of positions). -/
def b2jAll (b : List Char) (c : Char) : List Nat :=
  (b.enum.filter (fun p => p.2 == c)).map (fun p => p.1)

/-- The `autojunk` heuristic of `SequenceMatcher.__chain_b`: when
`len(b) >= 200`, elements occurring more than `len(b)//100 + 1` times are
"popular" and deleted from `b2j` (with `isjunk=None` there is no other junk). -/
def isPopular (b : List Char) (c : Char) : Bool :=
  decide (200 ≤ b.length) && decide (b.length / 100 + 1 < b.count c)

/-- `b2j.get(a[i], [])` as seen by `find_longest_match`: position list of `c`
in `b`, empty when `c` was deleted by `autojunk`. -/
def b2jGet (b : List Char) (c : Char) : List Nat :=
  if isPopular b c then [] else b2jAll b c

/-- Equality test `a[i] == b[j]` guarded by bounds (all reachable calls are in
bounds; Python would raise otherwise). -/
def chEq (a : List Char) (i : Nat) (b : List Char) (j : Nat) : Bool :=
  match a.get? i, b.get? j with
  | some x, some y => x == y
  | _, _ => false

/-- One row of the `find_longest_match` dynamic program: Python's
`for j in b2j.get(a[i], nothing)` loop.  `j < blo` is `continue`, `j >= bhi`
is `break` (the position lists are ascending), and
`k = newj2len[j] = j2len.get(j-1, 0) + 1` extends the diagonal run; the best
block is replaced only on strictly greater length (`if k > bestsize`), giving
the first-found tie-break.  Python's `j2len.get(j-1, 0)` with `j = 0` looks up
key `-1`, which is never present, hence the `j = 0` special case. -/
def rowLoop (old : List (Nat × Nat)) (blo bhi i : Nat) :
    List Nat → List (Nat × Nat) → Nat × Nat × Nat → List (Nat × Nat) × (Nat × Nat × Nat)
  | [], new, best => (new, best)
  | j :: js, new, best =>
    if j < blo then rowLoop old blo bhi i js new best
    else if bhi ≤ j then (new, best)
    else
      let k := (if j = 0 then 0 else jlookup old (j - 1)) + 1
      let best2 := if best.2.2 < k then (i + 1 - k, j + 1 - k, k) else best
      rowLoop old blo bhi i js ((j, k) :: new) best2

/-- The outer `for i in range(alo, ahi)` loop of `find_longest_match`,
threading the previous row `j2len` and the current best block. -/
def dpRows (a b : List Char) (blo bhi : Nat) :
    List Nat → List (Nat × Nat) → Nat × Nat × Nat → Nat × Nat × Nat
  | [], _, best => best
  | i :: rows, j2len, best =>
    let js := b2jGet b (a.getD i ' ')
    let st := rowLoop j2len blo bhi i js [] best
    dpRows a b blo bhi rows st.1 st.2

/-- First extension loop of `find_longest_match`:
`while besti > alo and bestj > blo and a[besti-1] == b[bestj-1]` (the
`not isbjunk(...)` conjunct is always true since `isjunk=None` makes `bjunk`
empty).  Structural recursion on `besti`, which strictly decreases. -/
def extendLeft (a b : List Char) (alo blo : Nat) : Nat → Nat → Nat → Nat × Nat × Nat
  | 0, bestj, bestsize => (0, bestj, bestsize)
  | besti+1, bestj, bestsize =>
    if decide (alo < besti + 1) && decide (blo < bestj) && chEq a besti b (bestj - 1) then
      extendLeft a b alo blo besti (bestj - 1) (bestsize + 1)
    else (besti + 1, bestj, bestsize)

/-- Second extension loop of `find_longest_match`:
`while besti+bestsize < ahi and bestj+bestsize < bhi and
a[besti+bestsize] == b[bestj+bestsize]` (again no junk conjunct).  The
`a`-side headroom `ahi - (besti + bestsize)`, which strictly decreases, is
passed as the explicit counter `room`, so `room = 0` is exactly
`besti + bestsize >= ahi`.  The two final junk-extension loops of the Python
source never fire with an empty `bjunk` and are omitted. -/
def extendRight (a b : List Char) (bhi besti bestj : Nat) : Nat → Nat → Nat
  | 0, bestsize => bestsize
  | room+1, bestsize =>
    if decide (bestj + bestsize < bhi) && chEq a (besti + bestsize) b (bestj + bestsize) then
      extendRight a b bhi besti bestj room (bestsize + 1)
    else bestsize

/-- `SequenceMatcher.find_longest_match(alo, ahi, blo, bhi)`, returning
`(besti, bestj, bestsize)`. -/
def find_longest_match (a b : List Char) (alo ahi blo bhi : Nat) : Nat × Nat × Nat :=
  let best := dpRows a b blo bhi (List.range' alo (ahi - alo)) [] (alo, blo, 0)
  let el := extendLeft a b alo blo best.1 best.2.1 best.2.2
  (el.1, el.2.1, extendRight a b bhi el.1 el.2.1 (ahi - (el.1 + el.2.2)) el.2.2)

/-- Total size of the matching blocks found by `get_matching_blocks` on the
region `[alo, ahi) × [blo, bhi)`: the longest match plus the blocks of the two
subregions that the queue-based traversal pushes (`(alo, i, blo, j)` when
`alo < i and blo < j`, and `(i+k, ahi, j+k, bhi)` when `i+k < ahi and
j+k < bhi`); traversal order does not affect the sum, and the final
merge-adjacent pass of the source preserves it.  The recursion consumes at
least one `a`-position per level, so `fuel = ahi - alo` steps suffice (proved
in `tmFuel_adequate` below); exhausted fuel only arises on an empty region,
where the dynamic program finds no block and the result is `0` either way. -/
def tmFuel (a b : List Char) : Nat → Nat → Nat → Nat → Nat → Nat
  | 0, _, _, _, _ => 0
  | fuel+1, alo, ahi, blo, bhi =>
    let m := find_longest_match a b alo ahi blo bhi
    if m.2.2 = 0 then 0
    else
      m.2.2
        + (if decide (alo < m.1) && decide (blo < m.2.1) then
            tmFuel a b fuel alo m.1 blo m.2.1 else 0)
        + (if decide (m.1 + m.2.2 < ahi) && decide (m.2.1 + m.2.2 < bhi) then
            tmFuel a b fuel (m.1 + m.2.2) ahi (m.2.1 + m.2.2) bhi else 0)

/-- `sum(size for (i, j, size) in get_matching_blocks())` over the full pair
of sequences. -/
def totalMatches (a b : List Char) : Nat :=
  tmFuel a b (a.length + 1) 0 a.length 0 b.length

/-- `SequenceMatcher.ratio()` = `_calculate_ratio(M, len(a)+len(b))`:
`2*M/T` as an exact rational, `1` when both strings are empty. -/
def ratioQ (a b : List Char) : ℚ :=
  if a.length + b.length = 0 then 1
  else (2 * (totalMatches a b : ℚ)) / ((a.length : ℚ) + (b.length : ℚ))

/-- `same_text(text_a, text_b, threshold)` from `utils/__init__.py`:
`SequenceMatcher(None, text_a, text_b).ratio() > threshold`.  The Python
default `threshold=0.9` is passed explicitly as `mkRat 9 10` at the call
sites.  The comparison `2*M/T > threshold` is evaluated by exact integer
cross-multiplication so that it reduces inside the kernel;
`same_text_eq_ratioQ_gt` below proves it equal to the direct rational
comparison `ratioQ > threshold`.  (`ratio()` of two empty strings is `1.0`.) -/
def same_text (text_a text_b : String) (threshold : ℚ) : Bool :=
  let a := text_a.data
  let b := text_b.data
  if a.length + b.length = 0 then Rat.blt threshold 1
  else
    decide (threshold.num * (a.length + b.length : Int)
      < 2 * (totalMatches a b : Int) * (threshold.den : Int))

/-- Python `str.lower()` restricted to its ASCII action (every title in the
concrete instances below is ASCII). -/
def strLower (s : String) : String :=
  String.mk (s.data.map Char.toLower)

/-!
## Data model

Entries are Python dicts built by `CitationRenderer.render_citations`
(`renderer.py`): the deduplication core reads `entry['fields']['title']` and
`entry['method']`, the renderer reads `year`, `name`, `citation` and `url`;
`key` stands for the remaining opaque payload carried through unchanged.
`method` is the provenance string from the config: `'scholar'` for scraped
profiles, `'bibtex'` for curated bibliography files (spec §3: Scraped /
Curated). -/
structure Entry where
  key : String
  title : String
  year : Int
  name : String
  method : String
  citation : String
  url : String
deriving DecidableEq, Repr

/-- Inner `for j, entry_b in enumerate(entries)` loop of `remove_duplicates`,
at fixed outer index `i` with captured `title_a` and `entry_a.method`.  A
Python list iterator holds an index cursor checked against the live length, so
mutation by `pop` is modelled by recursing on the updated list with cursor
`j + 1`.  `entries.pop(i)` raises `IndexError` when `i >= len(entries)`
(possible here because earlier pops in the same scan shrink the list), and
`entries.pop(j)` is always in bounds at its call site.  The cursor gains one
step per recursion while the length never grows, so `fuel = len(entries)`
steps reach the loop exit; at `fuel = 0` the cursor provably sits at or past
the live length (see `innerLoopF_adequate`), making `.ok entries` the loop
exit itself. -/
def innerLoopF (i : Nat) (title_a method_a : String) :
    Nat → Nat → List Entry → Except String (List Entry)
  | 0, _, entries => .ok entries
  | fuel+1, j, entries =>
    if h : j < entries.length then
      let entry_b := entries.get ⟨j, h⟩
      if i = j then innerLoopF i title_a method_a fuel (j + 1) entries
      else
        let title_b := strLower entry_b.title
        if same_text title_a title_b (mkRat 9 10) then
          if method_a = "scholar" then
            if i < entries.length then
              innerLoopF i title_a method_a fuel (j + 1) (entries.eraseIdx i)
            else .error "IndexError: pop index out of range"
          else if entry_b.method = "scholar" then
            innerLoopF i title_a method_a fuel (j + 1) (entries.eraseIdx j)
          else
            innerLoopF i title_a method_a fuel (j + 1) (entries.eraseIdx j)
        else innerLoopF i title_a method_a fuel (j + 1) entries
    else .ok entries

/-- Outer `for i, entry_a in enumerate(entries)` loop of `remove_duplicates`;
`title_a` and the preference on `entry_a.method` are captured at the start of
each outer step.  The inner loop starts at cursor `0` with fuel equal to the
live length.  As above, `fuel = len(entries)` outer steps suffice
(`outerLoopF_adequate`). -/
def outerLoopF : Nat → Nat → List Entry → Except String (List Entry)
  | 0, _, entries => .ok entries
  | fuel+1, i, entries =>
    if h : i < entries.length then
      let entry_a := entries.get ⟨i, h⟩
      match innerLoopF i (strLower entry_a.title) entry_a.method entries.length 0 entries with
      | .ok entries2 => outerLoopF fuel (i + 1) entries2
      | .error e => .error e
    else .ok entries

/-- `remove_duplicates(entries)` from `utils/__init__.py` (the unused upfront
`titles` list comprehension and the `print` diagnostics have no effect on the
result and are dropped). -/
def remove_duplicates (entries : List Entry) : Except String (List Entry) :=
  outerLoopF entries.length 0 entries

/-- The in-place `entries.sort(key=lambda x: x["year"], reverse=True)` at the
top of `CitationRenderer.generate_html`: Python's stable sort with the
comparisons reversed, i.e. a stable merge sort by descending year. -/
def sortByYearDesc (entries : List Entry) : List Entry :=
  entries.mergeSort (fun x y => decide (y.year ≤ x.year))

/-- The list that `main` (generate_citations.py) hands to `save_json` for the
combined `all.json`: `all_entries` after `remove_duplicates`, *as mutated in
place* by the preceding `renderer.generate_html(all_entries, ...)` call, i.e.
sorted by year descending (when the deduplicated pool is empty neither file is
written; the empty list stands for that trivial case). -/
def combinedJsonEntries (all_entries : List Entry) : Except String (List Entry) :=
  (remove_duplicates all_entries).map sortByYearDesc

/-!
## Concrete pools used as witnesses and counterexamples

All entries satisfy the §3 invariants of the spec: non-empty titles, a year,
and a provenance tag that is either `"scholar"` (Scraped) or `"bibtex"`
(Curated).  Titles are already lower case, so `strLower` fixes them. -/

/-- Shorthand for an entry with the fields the resolver and renderer read. -/
def sampleEntry (t m : String) (y : Int) : Entry :=
  ⟨"key", t, y, "someone", m, "citation text", "url"⟩

/-- Five valid entries on which `remove_duplicates` crashes.  Titles are runs
of `'a'` of lengths 12, 17, 20, 10, 14: two such runs score
`ratio = 2*min/(m+n) > 9/10` exactly when `9*max < 11*min`, so similarity
holds for the (non-transitive) pairs {0,3}, {0,4}, {1,2}, {1,4} only.  The
scan at outer index 2 (a `scholar` entry) then finds two matches; the first
`pop(2)` removes the scanned entry itself, the second happens when only two
entries remain, and `pop(2)` raises `IndexError`. -/
def crashPool : List Entry :=
  [sampleEntry "aaaaaaaaaaaa" "bibtex" 2000,
   sampleEntry "aaaaaaaaaaaaaaaaa" "bibtex" 2001,
   sampleEntry "aaaaaaaaaaaaaaaaaaaa" "scholar" 2002,
   sampleEntry "aaaaaaaaaa" "scholar" 2003,
   sampleEntry "aaaaaaaaaaaaaa" "scholar" 2004]

/-- Five entries: the entry titled `"zz"` is similar to no other entry (in
either direction), yet the index shifting caused by `pop(i)` during the scan
of the first `"aa"` entry removes it. -/
def uniqueTitlePool : List Entry :=
  [sampleEntry "aa" "scholar" 2000,
   sampleEntry "zz" "scholar" 2001,
   sampleEntry "aa" "scholar" 2002,
   sampleEntry "aa" "scholar" 2003,
   sampleEntry "aa" "scholar" 2004]

/-- `ratio("cccccccaba", "cccccccbabba") = 20/22 > 9/10` but
`ratio("cccccccbabba", "cccccccaba") = 18/22 ≤ 9/10`: the greedy matcher is
order-dependent, and this pair straddles the 0.9 threshold. -/
def strad1 : String := "cccccccaba"

/-- See `strad1`. -/
def strad2 : String := "cccccccbabba"

/-- Three curated entries: the first two share a title, the third is similar
to the first only in the direction the scan never takes after the duplicate
of entry 0 is popped.  `remove_duplicates` returns entries 0 and 2, which are
similar at threshold 0.9, and a second run merges them — so one run neither
collapses all clusters nor reaches a fixpoint. -/
def asymPool : List Entry :=
  [sampleEntry "cccccccaba" "bibtex" 2000,
   sampleEntry "cccccccaba" "bibtex" 2001,
   sampleEntry "cccccccbabba" "bibtex" 2002]

/-- The two survivors of `remove_duplicates asymPool`. -/
def asymSurvivors : List Entry :=
  [sampleEntry "cccccccaba" "bibtex" 2000,
   sampleEntry "cccccccbabba" "bibtex" 2002]

/-- Invariant of the best block `(besti, bestj, bestsize)` tracked by
`find_longest_match` on the region `[alo, ahi) × [blo, bhi)`: the block lies
inside the region.  Used to justify the fuel bound of `tmFuel`. -/
def BestB (alo ahi blo bhi : Nat) (t : Nat × Nat × Nat) : Prop :=
  alo ≤ t.1 ∧ t.1 + t.2.2 ≤ ahi ∧ blo ≤ t.2.1 ∧ t.2.1 + t.2.2 ≤ bhi

/-- Invariant of a `j2len` row produced while scanning `a`-positions below
`bound`: the stored diagonal-run length at key `j` is at most
`bound - alo` and at most `j + 1 - blo`. -/
def RowB (alo blo bound : Nat) (l : List (Nat × Nat)) : Prop :=
  ∀ p ∈ l, p.2 + alo ≤ bound ∧ p.2 + blo ≤ p.1 + 1

/-!
## Theorems -/

set_option maxRecDepth 1000000

/-- The integer cross-multiplication inside `same_text` computes exactly the
float comparison of the source, `seq.ratio() > threshold`. -/
theorem same_text_iff (text_a text_b : String) (threshold : ℚ) :
    same_text text_a text_b threshold = true ↔
      ratioQ text_a.data text_b.data > threshold := by
  unfold same_text ratioQ
  by_cases h : text_a.data.length + text_b.data.length = 0
  · simp only [h, reduceIte]
    rw [gt_iff_lt]
    exact Iff.rfl
  · have hpos : 0 < text_a.data.length + text_b.data.length := Nat.pos_of_ne_zero h
    have hT : (0:ℚ) < (text_a.data.length : ℚ) + (text_b.data.length : ℚ) := by
      exact_mod_cast hpos
    have hden : (0:ℚ) < (threshold.den : ℚ) := by
      exact_mod_cast threshold.pos
    simp only [h, if_neg, reduceIte, decide_eq_true_iff]
    rw [gt_iff_lt, lt_div_iff₀ hT]
    conv_rhs => rw [← Rat.num_div_den threshold]
    rw [div_mul_eq_mul_div, div_lt_iff₀ hden]
    constructor
    · intro h2
      exact_mod_cast h2
    · intro h2
      exact_mod_cast h2

/-- C1.  On `crashPool` — five entries that satisfy every §3 invariant — the
code raises `IndexError` from `entries.pop(i)`, contradicting the spec's "no
error conditions … must not crash unrecoverably". -/
theorem remove_duplicates_crashes_on_crashPool :
    remove_duplicates crashPool = .error "IndexError: pop index out of range" := rfl

/-- C2 counterexample.  In `uniqueTitlePool`, the entry titled `"zz"` is
similar to no other entry in either direction (all other titles are `"aa"`),
yet it does not appear in the output of `remove_duplicates`. -/
theorem remove_duplicates_drops_dissimilar_entry :
    same_text (strLower "zz") (strLower "aa") (mkRat 9 10) = false ∧
    same_text (strLower "aa") (strLower "zz") (mkRat 9 10) = false ∧
    sampleEntry "zz" "scholar" 2001 ∈ uniqueTitlePool ∧
    remove_duplicates uniqueTitlePool =
      .ok [sampleEntry "aa" "scholar" 2002, sampleEntry "aa" "scholar" 2004] ∧
    sampleEntry "zz" "scholar" 2001 ∉
      [sampleEntry "aa" "scholar" 2002, sampleEntry "aa" "scholar" 2004] := by
  refine ⟨rfl, rfl, ?_, rfl, ?_⟩
  · simp [uniqueTitlePool]
  · decide

/-- C3 counterexample.  `remove_duplicates asymPool` returns two distinct
entries whose (lower-case) titles are similar at threshold 0.9: the comparator
judges `strad1` similar to `strad2` in the direction the finished scan never
re-checks. -/
theorem remove_duplicates_leaves_similar_pair :
    remove_duplicates asymPool = .ok asymSurvivors ∧
    sampleEntry "cccccccaba" "bibtex" 2000 ∈ asymSurvivors ∧
    sampleEntry "cccccccbabba" "bibtex" 2002 ∈ asymSurvivors ∧
    sampleEntry "cccccccaba" "bibtex" 2000 ≠ sampleEntry "cccccccbabba" "bibtex" 2002 ∧
    same_text (strLower "cccccccaba") (strLower "cccccccbabba") (mkRat 9 10) = true := by
  refine ⟨rfl, ?_, ?_, ?_, rfl⟩
  · decide
  · decide
  · decide

/-- C4 counterexample.  A second run of `remove_duplicates` on the output for
`asymPool` removes one more entry, so `resolve (resolve entries)` differs from
`resolve entries`. -/
theorem remove_duplicates_not_idempotent :
    remove_duplicates asymPool = .ok asymSurvivors ∧
    remove_duplicates asymSurvivors = .ok [sampleEntry "cccccccaba" "bibtex" 2000] ∧
    asymSurvivors ≠ [sampleEntry "cccccccaba" "bibtex" 2000] := by
  refine ⟨rfl, rfl, ?_⟩
  decide

/-- C6 counterexample.  `same_text` does not lower-case its inputs: on
`("ABC", "abc")` it answers `false` while on the lower-cased pair it answers
`true`. -/
theorem same_text_not_case_insensitive :
    same_text "ABC" "abc" (mkRat 9 10) ≠
      same_text (strLower "ABC") (strLower "abc") (mkRat 9 10) := by
  decide

/-- C6 amended.  The comparator itself is case-sensitive — `isSimilar("ABC",
"abc")` is `false` even though the lower-cased forms compare equal — and
case-insensitivity is obtained by the caller (`remove_duplicates` lower-cases
titles before invoking `same_text`). -/
theorem same_text_case_sensitive :
    same_text "ABC" "abc" (mkRat 9 10) = false ∧
    same_text (strLower "ABC") (strLower "abc") (mkRat 9 10) = true := ⟨rfl, rfl⟩

/-- C7 counterexample.  The comparator is not symmetric, already at the
resolver's own threshold `0.9`: the greedy matcher matches 10 characters of
`(strad1, strad2)` but only 9 of `(strad2, strad1)`. -/
theorem same_text_not_symmetric :
    same_text strad1 strad2 (mkRat 9 10) ≠ same_text strad2 strad1 (mkRat 9 10) := by
  decide

/-- C7 amended.  `same_text` is a pure deterministic function but not a
symmetric one: with threshold `9/10`, `isSimilar(strad1, strad2)` is `true`
while `isSimilar(strad2, strad1)` is `false`. -/
theorem same_text_asymmetric_example :
    same_text strad1 strad2 (mkRat 9 10) = true ∧
    same_text strad2 strad1 (mkRat 9 10) = false := ⟨rfl, rfl⟩

/-- C9.  `same_text` answers `true` exactly when the matching-blocks ratio
`2*M/T` strictly exceeds the threshold; in particular a pair whose ratio is
exactly `9/10` (here `M = 9`, `T = 20`) is judged *not* similar at the default
threshold. -/
theorem same_text_strict_threshold :
    (∀ (text_a text_b : String) (threshold : ℚ),
        same_text text_a text_b threshold = true ↔
          ratioQ text_a.data text_b.data > threshold) ∧
    ratioQ "aaaaaaaaab".data "aaaaaaaaac".data = 9 / 10 ∧
    same_text "aaaaaaaaab" "aaaaaaaaac" (mkRat 9 10) = false := by
  refine ⟨same_text_iff, ?_, rfl⟩
  have hM : totalMatches "aaaaaaaaab".data "aaaaaaaaac".data = 9 := rfl
  unfold ratioQ
  rw [hM]
  norm_num

/-- Every successful inner-loop result is a subsequence of the list it
started from: the loop only ever removes elements via `pop`. -/
theorem innerLoopF_sublist (i : Nat) (ta ma : String) :
    ∀ (fuel j : Nat) (entries out : List Entry),
      innerLoopF i ta ma fuel j entries = .ok out → out.Sublist entries := by
  intro fuel
  induction fuel with
  | zero =>
    intro j entries out h
    simp only [innerLoopF] at h
    cases h
    exact List.Sublist.refl _
  | succ f ih =>
    intro j entries out h
    simp only [innerLoopF] at h
    split at h
    · split at h
      · exact ih _ _ _ h
      · split at h
        · split at h
          · split at h
            · exact (ih _ _ _ h).trans (List.eraseIdx_sublist _ _)
            · cases h
          · split at h
            · exact (ih _ _ _ h).trans (List.eraseIdx_sublist _ _)
            · exact (ih _ _ _ h).trans (List.eraseIdx_sublist _ _)
        · exact ih _ _ _ h
    · cases h
      exact List.Sublist.refl _

/-- Every successful outer-loop result is a subsequence of its input. -/
theorem outerLoopF_sublist :
    ∀ (fuel i : Nat) (entries out : List Entry),
      outerLoopF fuel i entries = .ok out → out.Sublist entries := by
  intro fuel
  induction fuel with
  | zero =>
    intro i entries out h
    simp only [outerLoopF] at h
    cases h
    exact List.Sublist.refl _
  | succ f ih =>
    intro i entries out h
    simp only [outerLoopF] at h
    split at h
    · split at h
      · exact (ih _ _ _ h).trans (innerLoopF_sublist _ _ _ _ _ _ _ (by assumption))
      · cases h
    · cases h
      exact List.Sublist.refl _

/-- C8.  Whenever `remove_duplicates` returns a pool, that pool is a
subsequence of the input: every output entry is an input entry with all its
fields unchanged, nothing new appears, and survivors keep their relative input
order.  (Determinism is immediate: the model is a pure function of the input
list.) -/
theorem remove_duplicates_sublist (entries out : List Entry)
    (h : remove_duplicates entries = .ok out) : out.Sublist entries :=
  outerLoopF_sublist _ _ _ _ h

/-- Witness for C8 at a concrete one-entry pool. -/
theorem remove_duplicates_sublist_witness :
    ([sampleEntry "aa" "scholar" 2000] : List Entry).Sublist
      [sampleEntry "aa" "scholar" 2000] :=
  remove_duplicates_sublist _ _ rfl

/-- If the scanned title matches no other entry of the pool, the inner loop
never pops and returns the pool unchanged. -/
theorem innerLoopF_no_match (i : Nat) (ta ma : String) (entries : List Entry)
    (hno : ∀ (q : Fin entries.length), (q : Nat) ≠ i →
      same_text ta (strLower (entries.get q).title) (mkRat 9 10) = false) :
    ∀ (fuel j : Nat), innerLoopF i ta ma fuel j entries = .ok entries := by
  intro fuel
  induction fuel with
  | zero => intro j; rfl
  | succ f ih =>
    intro j
    simp only [innerLoopF]
    split
    case isTrue h1 =>
      by_cases hij : i = j
      · rw [if_pos hij]
        exact ih _
      · rw [if_neg hij, hno ⟨j, h1⟩ (fun hc => hij hc.symm)]
        simp only [Bool.false_eq_true, if_false]
        exact ih _
    case isFalse => rfl

/-- With no similar pair anywhere in the pool, the outer loop is the
identity. -/
theorem outerLoopF_no_match (entries : List Entry)
    (hno : ∀ (p q : Fin entries.length), (p : Nat) ≠ (q : Nat) →
      same_text (strLower (entries.get p).title) (strLower (entries.get q).title)
        (mkRat 9 10) = false) :
    ∀ (fuel i : Nat), outerLoopF fuel i entries = .ok entries := by
  intro fuel
  induction fuel with
  | zero => intro i; rfl
  | succ f ih =>
    intro i
    simp only [outerLoopF]
    split
    case isTrue h1 =>
      have hin : innerLoopF i (strLower (entries.get ⟨i, h1⟩).title)
          (entries.get ⟨i, h1⟩).method entries.length 0 entries = .ok entries :=
        innerLoopF_no_match _ _ _ _
          (fun q hq => hno ⟨i, h1⟩ q (fun hc => hq hc.symm)) _ _
      rw [hin]
      exact ih _
    case isFalse => rfl

/-- C2 amended.  When no two distinct positions of the pool hold similar
lower-cased titles (threshold 0.9), `remove_duplicates` returns the pool
unchanged — so every such entry survives.  (The unrestricted claim is refuted
by `remove_duplicates_drops_dissimilar_entry`: once some pair *is* similar,
index shifting can also drop entries that are similar to nothing.) -/
theorem remove_duplicates_id_of_no_similar (entries : List Entry)
    (hno : ∀ (p q : Fin entries.length), (p : Nat) ≠ (q : Nat) →
      same_text (strLower (entries.get p).title) (strLower (entries.get q).title)
        (mkRat 9 10) = false) :
    remove_duplicates entries = .ok entries :=
  outerLoopF_no_match entries hno _ _

/-- Witness for the amended C2 at a concrete two-entry pool with dissimilar
titles. -/
theorem remove_duplicates_id_of_no_similar_witness :
    remove_duplicates [sampleEntry "aa" "bibtex" 2000, sampleEntry "zz" "bibtex" 2001] =
      .ok [sampleEntry "aa" "bibtex" 2000, sampleEntry "zz" "bibtex" 2001] :=
  remove_duplicates_id_of_no_similar _ (by decide)

/-- The empty pool is returned unchanged. -/
theorem rd_nil : remove_duplicates [] = .ok [] := rfl

/-- A one-entry pool is returned unchanged (the only index pair is `i = j`,
which the scan skips). -/
theorem rd_singleton (a : Entry) : remove_duplicates [a] = .ok [a] := rfl

/-- Two-entry pool, titles similar in scan direction, first entry scraped:
the first entry pops itself. -/
theorem rd_pair_ab_scholar (a b : Entry)
    (hab : same_text (strLower a.title) (strLower b.title) (mkRat 9 10) = true)
    (hma : a.method = "scholar") :
    remove_duplicates [a, b] = .ok [b] := by
  simp [remove_duplicates, outerLoopF, innerLoopF, hab, hma]

/-- Two-entry pool, titles similar in scan direction, first entry curated:
the second entry is popped (whatever its method). -/
theorem rd_pair_ab_other (a b : Entry)
    (hab : same_text (strLower a.title) (strLower b.title) (mkRat 9 10) = true)
    (hma : ¬ a.method = "scholar") :
    remove_duplicates [a, b] = .ok [a] := by
  simp [remove_duplicates, outerLoopF, innerLoopF, hab, hma]

/-- Two-entry pool similar only in the reverse direction, second entry
scraped: the second entry pops itself during its own scan. -/
theorem rd_pair_ba_scholar (a b : Entry)
    (hab : same_text (strLower a.title) (strLower b.title) (mkRat 9 10) = false)
    (hba : same_text (strLower b.title) (strLower a.title) (mkRat 9 10) = true)
    (hmb : b.method = "scholar") :
    remove_duplicates [a, b] = .ok [a] := by
  simp [remove_duplicates, outerLoopF, innerLoopF, hab, hba, hmb]

/-- Two-entry pool similar only in the reverse direction, second entry
curated: the first entry is popped. -/
theorem rd_pair_ba_other (a b : Entry)
    (hab : same_text (strLower a.title) (strLower b.title) (mkRat 9 10) = false)
    (hba : same_text (strLower b.title) (strLower a.title) (mkRat 9 10) = true)
    (hmb : ¬ b.method = "scholar") :
    remove_duplicates [a, b] = .ok [b] := by
  simp [remove_duplicates, outerLoopF, innerLoopF, hab, hba, hmb]

/-- Two-entry pool with no similarity in either direction: unchanged. -/
theorem rd_pair_none (a b : Entry)
    (hab : same_text (strLower a.title) (strLower b.title) (mkRat 9 10) = false)
    (hba : same_text (strLower b.title) (strLower a.title) (mkRat 9 10) = false) :
    remove_duplicates [a, b] = .ok [a, b] := by
  simp [remove_duplicates, outerLoopF, innerLoopF, hab, hba]

/-- C3 amended.  For pools of at most two entries the output of
`remove_duplicates` contains no two distinct entries with similar lower-cased
titles (in either comparison direction).  From three entries on the claim
fails — `remove_duplicates_leaves_similar_pair` — because a popped duplicate
shifts the comparator's asymmetric direction out of the scan. -/
theorem remove_duplicates_small_pool_no_similar_pair (entries out : List Entry)
    (hlen : entries.length ≤ 2) (h : remove_duplicates entries = .ok out) :
    ∀ x ∈ out, ∀ y ∈ out, x ≠ y →
      same_text (strLower x.title) (strLower y.title) (mkRat 9 10) = false := by
  rcases entries with _ | ⟨a, _ | ⟨b, _ | ⟨c, rest⟩⟩⟩
  · rw [rd_nil] at h
    cases h
    intro x hx
    simp at hx
  · rw [rd_singleton] at h
    cases h
    intro x hx y hy hxy
    simp only [List.mem_singleton] at hx hy
    subst hx; subst hy
    exact absurd rfl hxy
  · cases hab : same_text (strLower a.title) (strLower b.title) (mkRat 9 10) with
    | true =>
      by_cases hma : a.method = "scholar"
      · rw [rd_pair_ab_scholar a b hab hma] at h
        cases h
        intro x hx y hy hxy
        simp only [List.mem_singleton] at hx hy
        subst hx; subst hy
        exact absurd rfl hxy
      · rw [rd_pair_ab_other a b hab hma] at h
        cases h
        intro x hx y hy hxy
        simp only [List.mem_singleton] at hx hy
        subst hx; subst hy
        exact absurd rfl hxy
    | false =>
      cases hba : same_text (strLower b.title) (strLower a.title) (mkRat 9 10) with
      | true =>
        by_cases hmb : b.method = "scholar"
        · rw [rd_pair_ba_scholar a b hab hba hmb] at h
          cases h
          intro x hx y hy hxy
          simp only [List.mem_singleton] at hx hy
          subst hx; subst hy
          exact absurd rfl hxy
        · rw [rd_pair_ba_other a b hab hba hmb] at h
          cases h
          intro x hx y hy hxy
          simp only [List.mem_singleton] at hx hy
          subst hx; subst hy
          exact absurd rfl hxy
      | false =>
        rw [rd_pair_none a b hab hba] at h
        cases h
        intro x hx y hy hxy
        simp only [List.mem_cons, List.not_mem_nil, or_false] at hx hy
        rcases hx with hx | hx <;> rcases hy with hy | hy <;> subst hx <;> subst hy
        · exact absurd rfl hxy
        · exact hab
        · exact hba
        · exact absurd rfl hxy
  · exfalso
    simp only [List.length_cons] at hlen
    omega

/-- Witness for the amended C3, fully instantiated at a two-entry pool. -/
theorem remove_duplicates_small_pool_no_similar_pair_witness :
    same_text (strLower (sampleEntry "aa" "bibtex" 2000).title)
      (strLower (sampleEntry "zz" "bibtex" 2001).title) (mkRat 9 10) = false :=
  remove_duplicates_small_pool_no_similar_pair
    [sampleEntry "aa" "bibtex" 2000, sampleEntry "zz" "bibtex" 2001]
    [sampleEntry "aa" "bibtex" 2000, sampleEntry "zz" "bibtex" 2001]
    (by decide) rfl
    (sampleEntry "aa" "bibtex" 2000) (by decide)
    (sampleEntry "zz" "bibtex" 2001) (by decide) (by decide)

/-- C4 amended.  `remove_duplicates` is idempotent on pools of at most two
entries.  From three entries on idempotence fails
(`remove_duplicates_not_idempotent`): a survivor pair left similar by the
asymmetric comparator is merged by the second run. -/
theorem remove_duplicates_idempotent_small_pool (entries out : List Entry)
    (hlen : entries.length ≤ 2) (h : remove_duplicates entries = .ok out) :
    remove_duplicates out = .ok out := by
  rcases entries with _ | ⟨a, _ | ⟨b, _ | ⟨c, rest⟩⟩⟩
  · rw [rd_nil] at h
    cases h
    exact rd_nil
  · rw [rd_singleton] at h
    cases h
    exact rd_singleton a
  · cases hab : same_text (strLower a.title) (strLower b.title) (mkRat 9 10) with
    | true =>
      by_cases hma : a.method = "scholar"
      · rw [rd_pair_ab_scholar a b hab hma] at h
        cases h
        exact rd_singleton b
      · rw [rd_pair_ab_other a b hab hma] at h
        cases h
        exact rd_singleton a
    | false =>
      cases hba : same_text (strLower b.title) (strLower a.title) (mkRat 9 10) with
      | true =>
        by_cases hmb : b.method = "scholar"
        · rw [rd_pair_ba_scholar a b hab hba hmb] at h
          cases h
          exact rd_singleton a
        · rw [rd_pair_ba_other a b hab hba hmb] at h
          cases h
          exact rd_singleton b
      | false =>
        rw [rd_pair_none a b hab hba] at h
        cases h
        exact rd_pair_none a b hab hba
  · exfalso
    simp only [List.length_cons] at hlen
    omega

/-- Witness for the amended C4 at a concrete two-entry pool. -/
theorem remove_duplicates_idempotent_small_pool_witness :
    remove_duplicates [sampleEntry "aa" "scholar" 1999, sampleEntry "zz" "scholar" 1998] =
      .ok [sampleEntry "aa" "scholar" 1999, sampleEntry "zz" "scholar" 1998] :=
  remove_duplicates_idempotent_small_pool
    [sampleEntry "aa" "scholar" 1999, sampleEntry "zz" "scholar" 1998]
    [sampleEntry "aa" "scholar" 1999, sampleEntry "zz" "scholar" 1998]
    (by decide) rfl

/-- C5.  A pool of exactly three entries with pairwise similar lower-cased
titles, one Curated (`"bibtex"`) and two Scraped (`"scholar"`), collapses to
exactly the Curated entry, wherever the Curated entry sits. -/
theorem remove_duplicates_cluster3_curated (e1 e2 e3 : Entry)
    (h12 : same_text (strLower e1.title) (strLower e2.title) (mkRat 9 10) = true)
    (_h13 : same_text (strLower e1.title) (strLower e3.title) (mkRat 9 10) = true)
    (_h21 : same_text (strLower e2.title) (strLower e1.title) (mkRat 9 10) = true)
    (_h23 : same_text (strLower e2.title) (strLower e3.title) (mkRat 9 10) = true)
    (h31 : same_text (strLower e3.title) (strLower e1.title) (mkRat 9 10) = true)
    (h32 : same_text (strLower e3.title) (strLower e2.title) (mkRat 9 10) = true) :
    (e1.method = "bibtex" → e2.method = "scholar" → e3.method = "scholar" →
      remove_duplicates [e1, e2, e3] = .ok [e1]) ∧
    (e1.method = "scholar" → e2.method = "bibtex" → e3.method = "scholar" →
      remove_duplicates [e1, e2, e3] = .ok [e2]) ∧
    (e1.method = "scholar" → e2.method = "scholar" → e3.method = "bibtex" →
      remove_duplicates [e1, e2, e3] = .ok [e3]) := by
  refine ⟨fun hm1 hm2 hm3 => ?_, fun hm1 hm2 hm3 => ?_, fun hm1 hm2 hm3 => ?_⟩
  · simp [remove_duplicates, outerLoopF, innerLoopF, h12, h31, hm1, hm2, hm3]
  · simp [remove_duplicates, outerLoopF, innerLoopF, h12, h32, hm1, hm2, hm3]
  · simp [remove_duplicates, outerLoopF, innerLoopF, h12, h32, hm1, hm2, hm3]

/-- Witness for C5: a concrete cluster of three identically titled entries,
Curated first. -/
theorem remove_duplicates_cluster3_curated_witness :
    remove_duplicates
      [sampleEntry "dup" "bibtex" 1, sampleEntry "dup" "scholar" 2,
       sampleEntry "dup" "scholar" 3] = .ok [sampleEntry "dup" "bibtex" 1] :=
  (remove_duplicates_cluster3_curated (sampleEntry "dup" "bibtex" 1)
    (sampleEntry "dup" "scholar" 2) (sampleEntry "dup" "scholar" 3)
    rfl rfl rfl rfl rfl rfl).1 rfl rfl rfl

/-- C10.  `generate_html` sorts its caller's list in place by year descending
before rendering, so the list that `main` subsequently hands to `save_json`
for the combined `all.json` is the deduplicated pool in year-descending order
(a permutation of the resolver's output, not its survivor order). -/
theorem combined_json_year_sorted (pool out : List Entry)
    (h : remove_duplicates pool = .ok out) :
    combinedJsonEntries pool = .ok (sortByYearDesc out) ∧
    List.Pairwise (fun x y => y.year ≤ x.year) (sortByYearDesc out) ∧
    (sortByYearDesc out).Perm out := by
  refine ⟨by simp [combinedJsonEntries, h, Except.map], ?_, ?_⟩
  · have hs := @List.sorted_mergeSort Entry
      (fun x y : Entry => decide (y.year ≤ x.year))
      (fun a b c hab hbc => by
        simp only [decide_eq_true_iff] at hab hbc ⊢
        exact le_trans hbc hab)
      (fun a b => by
        simp only [Bool.or_eq_true, decide_eq_true_iff]
        exact le_total b.year a.year)
      out
    exact hs.imp (fun hxy => by simpa using hxy)
  · exact List.mergeSort_perm out _

/-- Witness for C10 at `uniqueTitlePool`, whose survivors (years 2002, 2004)
are re-emitted in descending year order. -/
theorem combined_json_year_sorted_witness :
    combinedJsonEntries uniqueTitlePool =
      .ok (sortByYearDesc [sampleEntry "aa" "scholar" 2002, sampleEntry "aa" "scholar" 2004]) ∧
    List.Pairwise (fun x y => y.year ≤ x.year)
      (sortByYearDesc [sampleEntry "aa" "scholar" 2002, sampleEntry "aa" "scholar" 2004]) ∧
    (sortByYearDesc [sampleEntry "aa" "scholar" 2002, sampleEntry "aa" "scholar" 2004]).Perm
      [sampleEntry "aa" "scholar" 2002, sampleEntry "aa" "scholar" 2004] :=
  combined_json_year_sorted uniqueTitlePool _ rfl

/-- One extra unit of fuel changes nothing once the fuel together with the
cursor covers the live length: each step advances the cursor by one while the
length never grows, so the loop exits before the fuel does. -/
theorem innerLoopF_step (i : Nat) (ta ma : String) :
    ∀ (fuel j : Nat) (entries : List Entry), entries.length ≤ fuel + j →
      innerLoopF i ta ma (fuel + 1) j entries = innerLoopF i ta ma fuel j entries := by
  intro fuel
  induction fuel with
  | zero =>
    intro j entries hle
    simp only [innerLoopF]
    split
    · omega
    · rfl
  | succ f ih =>
    intro j entries hle
    conv_lhs => rw [innerLoopF]
    conv_rhs => rw [innerLoopF]
    by_cases h : j < entries.length
    · simp only [dif_pos h]
      by_cases hij : i = j
      · simp only [if_pos hij]
        exact ih (j + 1) entries (by omega)
      · simp only [if_neg hij]
        cases hsim : same_text ta (strLower (entries.get ⟨j, h⟩).title) (mkRat 9 10) with
        | false =>
          simp only [hsim, Bool.false_eq_true, if_false]
          exact ih (j + 1) entries (by omega)
        | true =>
          simp only [hsim, if_true]
          split_ifs with h1 h2 h3
          · exact ih (j + 1) _ (le_trans (List.length_eraseIdx_le _ _) (by omega))
          · rfl
          · exact ih (j + 1) _ (le_trans (List.length_eraseIdx_le _ _) (by omega))
          · exact ih (j + 1) _ (le_trans (List.length_eraseIdx_le _ _) (by omega))
    · simp only [dif_neg h]

/-- Fuel adequacy for the inner loop: any fuel at least `entries.length - j`
computes the same result, so `innerLoopF` with fuel `entries.length` is the
unbounded Python loop. -/
theorem innerLoopF_adequate (i : Nat) (ta ma : String) :
    ∀ (d fuel j : Nat) (entries : List Entry), entries.length ≤ fuel + j →
      innerLoopF i ta ma (fuel + d) j entries = innerLoopF i ta ma fuel j entries := by
  intro d
  induction d with
  | zero => intro fuel j entries _; rfl
  | succ d ih =>
    intro fuel j entries hle
    have hstep : fuel + (d + 1) = (fuel + d) + 1 := rfl
    rw [hstep, innerLoopF_step i ta ma (fuel + d) j entries (by omega)]
    exact ih fuel j entries hle

/-- One extra unit of outer fuel changes nothing once fuel plus cursor covers
the live length (which never grows across inner scans). -/
theorem outerLoopF_step :
    ∀ (fuel i : Nat) (entries : List Entry), entries.length ≤ fuel + i →
      outerLoopF (fuel + 1) i entries = outerLoopF fuel i entries := by
  intro fuel
  induction fuel with
  | zero =>
    intro i entries hle
    simp only [outerLoopF]
    split
    · omega
    · rfl
  | succ f ih =>
    intro i entries hle
    conv_lhs => rw [outerLoopF]
    conv_rhs => rw [outerLoopF]
    by_cases h : i < entries.length
    · simp only [dif_pos h]
      cases hin : innerLoopF i (strLower (entries.get ⟨i, h⟩).title)
          (entries.get ⟨i, h⟩).method entries.length 0 entries with
      | ok e2 =>
        simp only [hin]
        exact ih (i + 1) e2
          (le_trans (List.Sublist.length_le (innerLoopF_sublist _ _ _ _ _ _ _ hin)) (by omega))
      | error e => simp only [hin]
    · simp only [dif_neg h]

/-- Fuel adequacy for the outer loop: `outerLoopF` with fuel
`entries.length` is the unbounded Python loop. -/
theorem outerLoopF_adequate :
    ∀ (d fuel i : Nat) (entries : List Entry), entries.length ≤ fuel + i →
      outerLoopF (fuel + d) i entries = outerLoopF fuel i entries := by
  intro d
  induction d with
  | zero => intro fuel i entries _; rfl
  | succ d ih =>
    intro fuel i entries hle
    have hstep : fuel + (d + 1) = (fuel + d) + 1 := rfl
    rw [hstep, outerLoopF_step (fuel + d) i entries (by omega)]
    exact ih fuel i entries hle

/-- A non-zero value stored in a `j2len` row respects the row's bounds. -/
theorem jlookup_bound (alo blo bound : Nat) :
    ∀ (old : List (Nat × Nat)) (x : Nat), RowB alo blo bound old →
      jlookup old x ≠ 0 →
      jlookup old x + alo ≤ bound ∧ jlookup old x + blo ≤ x + 1 := by
  intro old
  induction old with
  | nil => intro x _ hx; simp [jlookup] at hx
  | cons p rest ih =>
    rcases p with ⟨key, v⟩
    intro x hold hx
    simp only [jlookup] at hx ⊢
    by_cases hk : key = x
    · simp only [if_pos hk] at hx ⊢
      have hv := hold (key, v) (List.mem_cons_self _ _)
      rw [← hk]
      exact hv
    · simp only [if_neg hk] at hx ⊢
      exact ih x (fun p hp => hold p (List.mem_cons_of_mem _ hp)) hx

/-- One dynamic-program row preserves both invariants: new entries are runs
of length at most `i + 1 - alo` ending at column `j < bhi`, and any updated
best block lies inside the region. -/
theorem rowLoop_bound (alo ahi blo bhi i : Nat) (hia : alo ≤ i) (hia2 : i < ahi) :
    ∀ (js : List Nat) (old new : List (Nat × Nat)) (best : Nat × Nat × Nat),
      RowB alo blo i old → RowB alo blo (i + 1) new → BestB alo ahi blo bhi best →
      RowB alo blo (i + 1) (rowLoop old blo bhi i js new best).1 ∧
      BestB alo ahi blo bhi (rowLoop old blo bhi i js new best).2 := by
  intro js
  induction js with
  | nil => intro old new best _ hnew hbest; exact ⟨hnew, hbest⟩
  | cons j js ih =>
    intro old new best hold hnew hbest
    simp only [rowLoop]
    by_cases h1 : j < blo
    · simp only [if_pos h1]
      exact ih old new best hold hnew hbest
    · simp only [if_neg h1]
      by_cases h2 : bhi ≤ j
      · simp only [if_pos h2]
        exact ⟨hnew, hbest⟩
      · simp only [if_neg h2]
        have hblo : blo ≤ j := Nat.le_of_not_lt h1
        have hbhi : j < bhi := Nat.lt_of_not_le h2
        have hkb : ((if j = 0 then 0 else jlookup old (j - 1)) + 1) + alo ≤ i + 1 ∧
            ((if j = 0 then 0 else jlookup old (j - 1)) + 1) + blo ≤ j + 1 := by
          by_cases hj0 : j = 0
          · simp only [if_pos hj0]
            subst hj0
            omega
          · simp only [if_neg hj0]
            by_cases hl0 : jlookup old (j - 1) = 0
            · rw [hl0]
              omega
            · have := jlookup_bound alo blo i old (j - 1) hold hl0
              omega
        apply ih
        · exact hold
        · intro p hp
          rcases List.mem_cons.mp hp with hp | hp
          · subst hp
            exact hkb
          · exact hnew p hp
        · by_cases hup : best.2.2 < (if j = 0 then 0 else jlookup old (j - 1)) + 1
          · simp only [if_pos hup, BestB]
            omega
          · simp only [if_neg hup]
            exact hbest

/-- The best block produced by the row scan over `range' i0 m` lies inside
the region. -/
theorem dpRows_bound (a b : List Char) (alo ahi blo bhi : Nat) :
    ∀ (m i0 : Nat) (j2len : List (Nat × Nat)) (best : Nat × Nat × Nat),
      alo ≤ i0 → i0 + m ≤ ahi →
      RowB alo blo i0 j2len → BestB alo ahi blo bhi best →
      BestB alo ahi blo bhi (dpRows a b blo bhi (List.range' i0 m) j2len best) := by
  intro m
  induction m with
  | zero =>
    intro i0 j2len best _ _ _ hbest
    simpa [List.range', dpRows] using hbest
  | succ m ih =>
    intro i0 j2len best h1 h2 hrow hbest
    simp only [List.range']
    simp only [dpRows]
    have hr := rowLoop_bound alo ahi blo bhi i0 h1 (by omega)
      (b2jGet b (a.getD i0 ' ')) j2len [] best hrow (by intro p hp; simp at hp) hbest
    exact ih (i0 + 1) _ _ (by omega) (by omega) hr.1 hr.2

/-- The left extension loop keeps the block inside the region: it moves the
start left only while it stays at or after `alo`/`blo`, growing the size by
exactly the distance moved. -/
theorem extendLeft_bound (a b : List Char) (alo blo ahi bhi : Nat) :
    ∀ (bi bj bs : Nat), alo ≤ bi → bi + bs ≤ ahi → blo ≤ bj → bj + bs ≤ bhi →
      BestB alo ahi blo bhi (extendLeft a b alo blo bi bj bs) := by
  intro bi
  induction bi with
  | zero =>
    intro bj bs h1 h2 h3 h4
    simp only [extendLeft]
    exact ⟨h1, h2, h3, h4⟩
  | succ bi ih =>
    intro bj bs h1 h2 h3 h4
    simp only [extendLeft]
    split
    · next hcond =>
      simp only [Bool.and_eq_true, decide_eq_true_iff] at hcond
      exact ih (bj - 1) (bs + 1) (by omega) (by omega) (by omega) (by omega)
    · exact ⟨h1, h2, h3, h4⟩

/-- The right extension loop keeps the block end at or before `ahi`/`bhi`:
the `room` counter is the `a`-side headroom and the guard checks the
`b`-side. -/
theorem extendRight_bound (a b : List Char) (bhi besti bestj ahi : Nat) :
    ∀ (room bs : Nat), besti + bs + room ≤ ahi → bestj + bs ≤ bhi →
      besti + extendRight a b bhi besti bestj room bs ≤ ahi ∧
      bestj + extendRight a b bhi besti bestj room bs ≤ bhi := by
  intro room
  induction room with
  | zero =>
    intro bs h1 h2
    simp only [extendRight]
    omega
  | succ room ih =>
    intro bs h1 h2
    simp only [extendRight]
    split
    · next hcond =>
      simp only [Bool.and_eq_true, decide_eq_true_iff] at hcond
      exact ih (bs + 1) (by omega) (by omega)
    · omega

/-- The block returned by `find_longest_match` lies inside the region
`[alo, ahi) × [blo, bhi)`. -/
theorem find_longest_match_bound (a b : List Char) (alo ahi blo bhi : Nat)
    (h1 : alo ≤ ahi) (h2 : blo ≤ bhi) :
    BestB alo ahi blo bhi (find_longest_match a b alo ahi blo bhi) := by
  unfold find_longest_match
  have hdp : BestB alo ahi blo bhi
      (dpRows a b blo bhi (List.range' alo (ahi - alo)) [] (alo, blo, 0)) :=
    dpRows_bound a b alo ahi blo bhi (ahi - alo) alo [] (alo, blo, 0) le_rfl (by omega)
      (by intro p hp; simp at hp) (by simp only [BestB]; omega)
  obtain ⟨d1, d2, d3, d4⟩ := hdp
  have hel := extendLeft_bound a b alo blo ahi bhi
    (dpRows a b blo bhi (List.range' alo (ahi - alo)) [] (alo, blo, 0)).1
    (dpRows a b blo bhi (List.range' alo (ahi - alo)) [] (alo, blo, 0)).2.1
    (dpRows a b blo bhi (List.range' alo (ahi - alo)) [] (alo, blo, 0)).2.2
    d1 d2 d3 d4
  obtain ⟨e1, e2, e3, e4⟩ := hel
  have her := extendRight_bound a b bhi
    (extendLeft a b alo blo
      (dpRows a b blo bhi (List.range' alo (ahi - alo)) [] (alo, blo, 0)).1
      (dpRows a b blo bhi (List.range' alo (ahi - alo)) [] (alo, blo, 0)).2.1
      (dpRows a b blo bhi (List.range' alo (ahi - alo)) [] (alo, blo, 0)).2.2).1
    (extendLeft a b alo blo
      (dpRows a b blo bhi (List.range' alo (ahi - alo)) [] (alo, blo, 0)).1
      (dpRows a b blo bhi (List.range' alo (ahi - alo)) [] (alo, blo, 0)).2.1
      (dpRows a b blo bhi (List.range' alo (ahi - alo)) [] (alo, blo, 0)).2.2).2.1
    ahi
    (ahi - ((extendLeft a b alo blo
      (dpRows a b blo bhi (List.range' alo (ahi - alo)) [] (alo, blo, 0)).1
      (dpRows a b blo bhi (List.range' alo (ahi - alo)) [] (alo, blo, 0)).2.1
      (dpRows a b blo bhi (List.range' alo (ahi - alo)) [] (alo, blo, 0)).2.2).1 +
      (extendLeft a b alo blo
      (dpRows a b blo bhi (List.range' alo (ahi - alo)) [] (alo, blo, 0)).1
      (dpRows a b blo bhi (List.range' alo (ahi - alo)) [] (alo, blo, 0)).2.1
      (dpRows a b blo bhi (List.range' alo (ahi - alo)) [] (alo, blo, 0)).2.2).2.2))
    (extendLeft a b alo blo
      (dpRows a b blo bhi (List.range' alo (ahi - alo)) [] (alo, blo, 0)).1
      (dpRows a b blo bhi (List.range' alo (ahi - alo)) [] (alo, blo, 0)).2.1
      (dpRows a b blo bhi (List.range' alo (ahi - alo)) [] (alo, blo, 0)).2.2).2.2
    (by omega) e4
  exact ⟨e1, her.1, e3, her.2⟩

/-- The left extension loop cannot move a block that starts at `alo`. -/
theorem extendLeft_self (a b : List Char) (alo blo bj bs : Nat) :
    extendLeft a b alo blo alo bj bs = (alo, bj, bs) := by
  cases alo with
  | zero => simp [extendLeft]
  | succ n => simp [extendLeft]

/-- The right extension loop stops immediately when the `b`-side guard
fails. -/
theorem extendRight_stuck (a b : List Char) (bhi bi bj : Nat) (room bs : Nat)
    (h : ¬ bj + bs < bhi) :
    extendRight a b bhi bi bj room bs = bs := by
  cases room with
  | zero => rfl
  | succ r => simp [extendRight, h]

/-- On an empty `b`-region every column is skipped (`continue`) or cut off
(`break`), so a row changes nothing. -/
theorem rowLoop_degenerate (blo bhi i : Nat) (h : bhi ≤ blo) :
    ∀ (js : List Nat) (old new : List (Nat × Nat)) (best : Nat × Nat × Nat),
      rowLoop old blo bhi i js new best = (new, best) := by
  intro js
  induction js with
  | nil => intro old new best; rfl
  | cons j js ih =>
    intro old new best
    simp only [rowLoop]
    by_cases h1 : j < blo
    · simp only [if_pos h1]
      exact ih old new best
    · simp only [if_neg h1, if_pos (show bhi ≤ j by omega)]

/-- On an empty `b`-region the whole dynamic program leaves the best block
untouched. -/
theorem dpRows_degenerate (a b : List Char) (blo bhi : Nat) (h : bhi ≤ blo) :
    ∀ (rows : List Nat) (j2len : List (Nat × Nat)) (best : Nat × Nat × Nat),
      dpRows a b blo bhi rows j2len best = best := by
  intro rows
  induction rows with
  | nil => intro j2len best; rfl
  | cons i rows ih =>
    intro j2len best
    simp only [dpRows, rowLoop_degenerate blo bhi i h]
    exact ih _ _

/-- An empty `a`-region yields the empty block `(alo, blo, 0)`. -/
theorem find_longest_match_empty_a (a b : List Char) (alo ahi blo bhi : Nat) (h : ahi ≤ alo) :
    find_longest_match a b alo ahi blo bhi = (alo, blo, 0) := by
  unfold find_longest_match
  rw [show ahi - alo = 0 by omega]
  simp only [List.range']
  simp only [dpRows]
  rw [extendLeft_self]
  rw [show ahi - (alo + 0) = 0 by omega]
  rfl

/-- An empty `b`-region yields the empty block `(alo, blo, 0)`. -/
theorem find_longest_match_empty_b (a b : List Char) (alo ahi blo bhi : Nat) (h : bhi ≤ blo) :
    find_longest_match a b alo ahi blo bhi = (alo, blo, 0) := by
  unfold find_longest_match
  rw [dpRows_degenerate a b blo bhi h]
  dsimp only
  rw [extendLeft_self]
  rw [extendRight_stuck a b bhi alo blo _ 0 (by omega)]

/-- One extra unit of fuel changes nothing once the fuel covers the size of
the `a`-region: every recursive subregion of `get_matching_blocks` is at
least one `a`-position smaller. -/
theorem tmFuel_step (a b : List Char) :
    ∀ (fuel alo ahi blo bhi : Nat), ahi - alo ≤ fuel →
      tmFuel a b (fuel + 1) alo ahi blo bhi = tmFuel a b fuel alo ahi blo bhi := by
  intro fuel
  induction fuel with
  | zero =>
    intro alo ahi blo bhi hle
    conv_lhs => rw [tmFuel]
    rw [find_longest_match_empty_a a b alo ahi blo bhi (by omega)]
    rfl
  | succ fuel ih =>
    intro alo ahi blo bhi hle
    by_cases ha : alo ≤ ahi
    · by_cases hb : blo ≤ bhi
      · conv_lhs => rw [tmFuel]
        conv_rhs => rw [tmFuel]
        by_cases hk : (find_longest_match a b alo ahi blo bhi).2.2 = 0
        · simp only [hk, if_true, reduceIte]
        · obtain ⟨b1, b2, b3, b4⟩ := find_longest_match_bound a b alo ahi blo bhi ha hb
          have r1 : tmFuel a b (fuel + 1) alo (find_longest_match a b alo ahi blo bhi).1
                blo (find_longest_match a b alo ahi blo bhi).2.1
              = tmFuel a b fuel alo (find_longest_match a b alo ahi blo bhi).1
                blo (find_longest_match a b alo ahi blo bhi).2.1 :=
            ih _ _ _ _ (by omega)
          have r2 : tmFuel a b (fuel + 1)
                ((find_longest_match a b alo ahi blo bhi).1 +
                  (find_longest_match a b alo ahi blo bhi).2.2) ahi
                ((find_longest_match a b alo ahi blo bhi).2.1 +
                  (find_longest_match a b alo ahi blo bhi).2.2) bhi
              = tmFuel a b fuel
                ((find_longest_match a b alo ahi blo bhi).1 +
                  (find_longest_match a b alo ahi blo bhi).2.2) ahi
                ((find_longest_match a b alo ahi blo bhi).2.1 +
                  (find_longest_match a b alo ahi blo bhi).2.2) bhi :=
            ih _ _ _ _ (by omega)
          simp only [r1, r2]
      · conv_lhs => rw [tmFuel]
        conv_rhs => rw [tmFuel]
        rw [find_longest_match_empty_b a b alo ahi blo bhi (by omega)]
        rfl
    · conv_lhs => rw [tmFuel]
      conv_rhs => rw [tmFuel]
      rw [find_longest_match_empty_a a b alo ahi blo bhi (by omega)]
      rfl

/-- Fuel adequacy for the matching-block sum: any fuel of at least
`ahi - alo` computes the same value, so `totalMatches` (fuel
`a.length + 1`) is the unbounded region recursion of
`get_matching_blocks`. -/
theorem tmFuel_adequate (a b : List Char) :
    ∀ (d fuel alo ahi blo bhi : Nat), ahi - alo ≤ fuel →
      tmFuel a b (fuel + d) alo ahi blo bhi = tmFuel a b fuel alo ahi blo bhi := by
  intro d
  induction d with
  | zero => intro fuel alo ahi blo bhi _; rfl
  | succ d ih =>
    intro fuel alo ahi blo bhi hle
    have hstep : fuel + (d + 1) = (fuel + d) + 1 := rfl
    rw [hstep, tmFuel_step a b (fuel + d) alo ahi blo bhi (by omega)]
    exact ih fuel alo ahi blo bhi hle
